import Mathlib

/-!
# Verification of the ech-wk tunnel proxy

Shallow embedding, in Lean 4, of the core algorithms of the ech-wk
repository: the ingress Go proxy (`core` package: IP-range table,
routing policy, SOCKS5 UDP relay, HTTP forward proxy, tunneled relay
loop) and the Cloudflare-worker egress variants (`TcpWsSession`,
`WebSocketSession`, `ProxySession`): frame parsing, the CONNECT
handshake with its fallback cascade, and the session pool.

Conventions used throughout:
* Go/JS byte slices are `List Nat`, JS strings are `List Char`.
* Machine integers that cannot overflow at the modelled call sites
  (ports, lengths, counters) are `Nat`/`Int`.
* IPv4 addresses are their `uint32` numeric value (`ipToUint32`);
  IPv6 addresses are their 16-byte value read as a 128-bit natural
  number, under which the Go function `compareIPv6` (lexicographic comparison of
  two 16-byte arrays) is exactly numeric comparison.
* I/O outcomes that the control flow branches on (dial results, DNS
  resolution) are oracle parameters.
-/

namespace EchWk

/-! ## IPv4/IPv6 range table (Go `core` package, `ipRange` / `ipRangeV6`)

`endv` models the Go struct field `end` (a Lean keyword). -/

structure ipRange where
  start : Nat
  endv : Nat
deriving DecidableEq, Repr

/-- One step of the selection performed by the inner loop of the
selection sort in `loadChinaIPList`: given a current minimum candidate
and the remaining elements, return the minimum (by `start`, first
occurrence, as picked by the strict `<` comparison of the Go loop) and the other
elements.  The Go code swaps in place; the relative order of the
non-minimal elements is irrelevant to the sortedness and membership
facts proved below. -/
def selectMin : ipRange → List ipRange → ipRange × List ipRange
  | m, [] => (m, [])
  | m, x :: xs =>
    if x.start < m.start then
      let p := selectMin x xs
      (p.1, m :: p.2)
    else
      let p := selectMin m xs
      (p.1, x :: p.2)

/-- Outer loop of the selection sort in `loadChinaIPList` /
`loadChinaIPV6List` ("按起始IP排序"): repeatedly move the minimum-start
range to the front.  `fuel` is the loop bound (the list length). -/
def selSortFuel : Nat → List ipRange → List ipRange
  | _, [] => []
  | 0, _ :: _ => []
  | fuel + 1, x :: xs =>
    let p := selectMin x xs
    p.1 :: selSortFuel fuel p.2

/-- Sort a range list ascending by `start` (the sort at the end of
`loadChinaIPList`). -/
def sortRangesByStart (l : List ipRange) : List ipRange :=
  selSortFuel l.length l

/-- Model of `loadChinaIPList`, after the per-line parsing has produced numeric
`(start, end)` pairs: keep the pairs accepted by
`start > 0 && end > 0 && start <= end`, then sort by `start`.
(File download, scanning and `net.ParseIP` are I/O and are abstracted
into the numeric input list.) -/
def loadChinaIPList (entries : List (Nat × Nat)) : List ipRange :=
  sortRangesByStart
    ((entries.filter fun e => decide (0 < e.1 ∧ 0 < e.2 ∧ e.1 ≤ e.2)).map
      fun e => ⟨e.1, e.2⟩)

/-- Body of the binary-search loop `for left < right` of `isChinaIP`, with the
interval width as fuel (the loop shrinks the interval every iteration,
so `right - left` iterations always suffice; `rangeContains` supplies
adequate fuel). -/
def bsearchFuel (rs : List ipRange) (x : Nat) : Nat → Nat → Nat → Bool
  | 0, _, _ => false
  | fuel + 1, left, right =>
    if left < right then
      if x < (rs.getD ((left + right) / 2) ⟨0, 0⟩).start then
        bsearchFuel rs x fuel left ((left + right) / 2)
      else if (rs.getD ((left + right) / 2) ⟨0, 0⟩).endv < x then
        bsearchFuel rs x fuel ((left + right) / 2 + 1) right
      else true
    else false

/-- Binary-search membership over a whole range table
(`left, right := 0, len(ranges)` in `isChinaIP`). -/
def rangeContains (rs : List ipRange) (x : Nat) : Bool :=
  bsearchFuel rs x rs.length 0 rs.length

/-- An IP address as dispatched by `isChinaIP`: either an IPv4 address
(`ip.To4() != nil`, as its `uint32` value) or an IPv6 address (as its
128-bit value). -/
inductive IPAddr
  | v4 (a : Nat)
  | v6 (a : Nat)
deriving DecidableEq, Repr

/-- Model of `isChinaIP` on a successfully parsed address: the IPv4 branch
rejects the zero value (`ipUint32 == 0`) and binary-searches the IPv4
table; the IPv6 branch binary-searches the IPv6 table. -/
def isChinaIP (r4 r6 : List ipRange) : IPAddr → Bool
  | .v4 a => if a = 0 then false else rangeContains r4 a
  | .v6 a => rangeContains r6 a

/-- Membership of an address in a range table, as plain interval
membership (used to state what the binary search is supposed to
decide). -/
def inRangeTable (rs : List ipRange) (a : Nat) : Prop :=
  ∃ rg ∈ rs, rg.start ≤ a ∧ a ≤ rg.endv

instance (rs : List ipRange) (a : Nat) : Decidable (inRangeTable rs a) := by
  unfold inRangeTable; infer_instance

/-- Interval membership of an address in the table matching its
family (what `isChinaIP` is supposed to decide). -/
def addrInTables (r4 r6 : List ipRange) : IPAddr → Prop
  | .v4 a => inRangeTable r4 a
  | .v6 a => inRangeTable r6 a

instance (r4 r6 : List ipRange) (ip : IPAddr) :
    Decidable (addrInTables r4 r6 ip) := by
  cases ip <;> (unfold addrInTables; infer_instance)

/-! ## JS string and number helpers

JS strings are `List Char`; the helpers below model the exact
semantics of the JS built-ins used by the workers (`indexOf`,
`lastIndexOf`, `substring` with its clamp-and-swap rule, `trim`,
`toLowerCase`, `Number`, `parseInt`). -/

/-- Character list of a string literal. -/
def chars (s : String) : List Char := s.data

/-- Model of `String.prototype.trim`. -/
def jsTrim (l : List Char) : List Char :=
  ((l.dropWhile Char.isWhitespace).reverse.dropWhile Char.isWhitespace).reverse

/-- Index of the first occurrence of a character (JS `indexOf` when it
finds one). -/
def idxOf? (c : Char) (l : List Char) : Option Nat :=
  l.findIdx? (· == c)

/-- Index of the last occurrence of a character (JS `lastIndexOf` when
it finds one). -/
def lastIdxOf? (c : Char) (l : List Char) : Option Nat :=
  match idxOf? c l.reverse with
  | some i => some (l.length - 1 - i)
  | none => none

/-- Model of JS `indexOf(c, start)` with a non-negative start index:
`-1` when absent. -/
def jsIndexOfFrom (l : List Char) (c : Char) (start : Nat) : Int :=
  match idxOf? c (l.drop start) with
  | some i => ((start + i : Nat) : Int)
  | none => -1

/-- Clamp a JS index argument into `[0, n]`. -/
def clampIdx (i : Int) (n : Nat) : Nat :=
  if i ≤ 0 then 0 else min i.toNat n

/-- Model of `String.prototype.substring(a, b)`: both arguments are
clamped into `[0, length]` and swapped when `a > b`. -/
def jsSubstring (l : List Char) (a b : Int) : List Char :=
  if clampIdx a l.length ≤ clampIdx b l.length then
    (l.drop (clampIdx a l.length)).take (clampIdx b l.length - clampIdx a l.length)
  else
    (l.drop (clampIdx b l.length)).take (clampIdx a l.length - clampIdx b l.length)

/-- Model of `String.prototype.toLowerCase` on the ASCII strings that
occur here. -/
def jsToLower (l : List Char) : List Char :=
  l.map Char.toLower

/-- Value of a list of decimal digits. -/
def digitsVal (l : List Char) : Nat :=
  l.foldl (fun acc c => acc * 10 + (c.toNat - 48)) 0

/-- Model of JS `Number(s)` restricted to the integer outcomes the
callers branch on: `some v` when the trimmed string is an optionally
signed decimal numeral (or empty, which `Number` maps to `0`), `none`
for everything that is `NaN` or not an integer — both of which the
caller (`Number.isInteger`) rejects the same way.  Exotic integer
numerals (hex, exponent notation) are outside the modelled input
space. -/
def jsNumberInt (s : List Char) : Option Int :=
  if jsTrim s = [] then some 0
  else if (jsTrim s).all Char.isDigit then some (digitsVal (jsTrim s))
  else if (jsTrim s).head? = some '-' ∧ ((jsTrim s).drop 1) ≠ [] ∧
      ((jsTrim s).drop 1).all Char.isDigit then
    some (-(digitsVal ((jsTrim s).drop 1) : Int))
  else if (jsTrim s).head? = some '+' ∧ ((jsTrim s).drop 1) ≠ [] ∧
      ((jsTrim s).drop 1).all Char.isDigit then
    some (digitsVal ((jsTrim s).drop 1))
  else none

/-- Decimal value of the leading digit run, `none` when there is no
digit. -/
def digitsPrefixVal (l : List Char) : Option Int :=
  if l.takeWhile Char.isDigit = [] then none
  else some (digitsVal (l.takeWhile Char.isDigit))

/-- Sign handling of `parseInt`. -/
def parseIntCore : List Char → Option Int
  | '-' :: rest => (digitsPrefixVal rest).map (fun v => -v)
  | '+' :: rest => digitsPrefixVal rest
  | l => digitsPrefixVal l

/-- Model of JS `parseInt(s, 10)`: skip leading whitespace, optional
sign, then the leading digit run; `NaN` (here `none`) when no digit
follows. -/
def jsParseInt (s : List Char) : Option Int :=
  parseIntCore (s.dropWhile Char.isWhitespace)

/-- Model of `fmt.Sscanf(s, "%d", &length)` in `handleHTTP`: on a scan
failure the variable keeps its zero value. -/
def sscanfInt (s : List Char) : Int :=
  (jsParseInt s).getD 0

/-- Containment of `needle` as a contiguous substring (JS
`String.prototype.includes` / a literal-text regex test). -/
def containsSub (needle : List Char) : List Char → Bool
  | [] => needle.isEmpty
  | c :: rest => needle.isPrefixOf (c :: rest) || containsSub needle rest

namespace TcpWs

/-! ## Egress worker, `TcpWsSession` variant (first worker file)

Models `parseAddress`, `isIpAddress`, `isCFError`, `Message.parse`,
`SessionPool` and the `_onWsMessage` / `_connectRemote` control flow.
Network dialing is an oracle `dial : Nat → DialOutcome` giving the
outcome of the i-th `connect()` attempt. -/

/-- Model of the `parseAddress` of the `TcpWsSession` worker: returns
host and the port **as a string**; throws (`Except.error`) on an empty
input or a missing port separator. -/
def parseAddress (addr : List Char) : Except (List Char) (List Char × List Char) :=
  if addr = [] then .error (chars "Invalid address")
  else
    match (jsTrim addr).head?, idxOf? ']' (jsTrim addr) with
    | some '[', some closeIdx =>
      .ok (((jsTrim addr).drop 1).take (closeIdx - 1),
        match idxOf? ':' ((jsTrim addr).drop (closeIdx + 1)) with
        | some i => ((jsTrim addr).drop (closeIdx + 1)).drop (i + 1)
        | none => [])
    | _, _ =>
      match lastIdxOf? ':' (jsTrim addr) with
      | some ci =>
        if ci = 0 then .error (chars "Address must include port")
        else .ok ((jsTrim addr).take ci, (jsTrim addr).drop (ci + 1))
      | none => .error (chars "Address must include port")

/-- Hex-digit test used by the IPv6-ish character class of
`isIpAddress`. -/
def isHexDigitChar (c : Char) : Bool :=
  c.isDigit || decide ('a' ≤ c ∧ c ≤ 'f') || decide ('A' ≤ c ∧ c ≤ 'F')

/-- Model of `isIpAddress`: `/^[0-9.]+$/` or
`/^\[?[0-9a-fA-F:.]+\]?$/`. -/
def isIpAddress (host : List Char) : Bool :=
  if host = [] then false
  else if host.all fun c => c.isDigit || (c == '.') then true
  else
    let body1 := if host.head? = some '[' then host.drop 1 else host
    let body := if body1.getLast? = some ']' then body1.dropLast else body1
    !body.isEmpty && body.all fun c => isHexDigitChar c || (c == ':') || (c == '.')

/-- Model of `isCFError`: the case-insensitive regex tests
`/proxy request/i`, `/cannot connect/i`, `/cloudflare/i` against the
error message. -/
def isCFError (msg : List Char) : Bool :=
  containsSub (chars "proxy request") (jsToLower msg) ||
  containsSub (chars "cannot connect") (jsToLower msg) ||
  containsSub (chars "cloudflare") (jsToLower msg)

/-- Port of a dial attempt: the validated numeric port of the target
(or an inherited default), or the raw port **string** that
`parseAddress` returns for a fallback entry containing `:`. -/
inductive PortVal
  | num (n : Int)
  | str (s : List Char)
deriving DecidableEq, Repr

/-- One entry of the dial-attempt list. -/
structure Attempt where
  host : List Char
  port : PortVal
deriving DecidableEq, Repr

/-- Model of `_fallbackAttempts` for a single configured fallback
entry: entries containing `:` go through `parseAddress` (which may
throw), entries without `:` inherit the default (target) port. -/
def fallbackAttempt (defaultPort : Int) (item : List Char) :
    Except (List Char) Attempt :=
  if ':' ∈ item then
    match parseAddress item with
    | .ok hp => .ok ⟨hp.1, .str hp.2⟩
    | .error e => .error e
  else .ok ⟨item, .num defaultPort⟩

/-- The `this.cfg.FALLBACK_IPS.map(...)` of `_fallbackAttempts`,
evaluated left to right; a throw from `parseAddress` on any entry
aborts the whole construction (as the eager JS `map` does). -/
def fallbackAttemptsList (p : Int) :
    List (List Char) → Except (List Char) (List Attempt)
  | [] => .ok []
  | item :: rest =>
    match fallbackAttempt p item with
    | .error e => .error e
    | .ok a =>
      match fallbackAttemptsList p rest with
      | .error e => .error e
      | .ok as => .ok (a :: as)

/-- Attempt-list construction of `_connectRemote`: `[target]` when the
target host is an IP literal, otherwise `[target, ...fallbacks]`. -/
def buildAttempts (host : List Char) (p : Int) (fallbacks : List (List Char)) :
    Except (List Char) (List Attempt) :=
  if isIpAddress host then .ok [⟨host, .num p⟩]
  else
    match fallbackAttemptsList p fallbacks with
    | .ok rest => .ok (⟨host, .num p⟩ :: rest)
    | .error e => .error e

/-- Outcome of one `connect()` attempt, as observed by the session
(oracle). -/
inductive DialOutcome
  | ok
  | fail (msg : List Char)
deriving DecidableEq, Repr

/-- The `for` loop of `_connectRemote` over the attempt list: returns
the attempts actually dialed and `none` on success or `some errMsg`
when the loop throws (a non-transient failure, or a failure of the
last attempt). -/
def connectLoopGo (dial : Nat → DialOutcome) :
    List Attempt → Nat → List Attempt × Option (List Char)
  | [], _ => ([], none)
  | a :: rest, i =>
    match dial i with
    | .ok => ([a], none)
    | .fail msg =>
      if isCFError msg && !rest.isEmpty then
        ((a :: (connectLoopGo dial rest (i + 1)).1),
          (connectLoopGo dial rest (i + 1)).2)
      else ([a], some msg)

/-- Session configuration relevant to `_connectRemote`. -/
structure TcpCfg where
  fallbacks : List (List Char)
  allowedHosts : List (List Char)
deriving DecidableEq, Repr

/-- Result of `_connectRemote`: success records the dialed attempts and
the first-payload writes performed before `CONNECTED` is sent; failure
records the dialed attempts and the thrown error message (which
`_onWsMessage` turns into an `ERROR` frame plus a dispose). -/
inductive ConnectOutcome
  | connected (dialed : List Attempt) (firstWrites : List (List Char))
  | failed (dialed : List Attempt) (errMsg : List Char)
deriving DecidableEq, Repr

/-- Model of `_connectRemote`: parse the target, validate the port
(`Number.isInteger`, `1..65535`), check the host allowlist, build the
attempt list, run the dial loop; on success write the first payload iff
it is truthy (non-null and non-empty). -/
def connectRemote (cfg : TcpCfg) (dial : Nat → DialOutcome)
    (target : List Char) (firstPayload : Option (List Char)) : ConnectOutcome :=
  match parseAddress target with
  | .error e => .failed [] e
  | .ok hp =>
    match jsNumberInt hp.2 with
    | none => .failed [] (chars "Invalid port: " ++ hp.2)
    | some p =>
      if p ≤ 0 ∨ 65535 < p then .failed [] (chars "Invalid port: " ++ hp.2)
      else if cfg.allowedHosts ≠ [] ∧ hp.1 ∉ cfg.allowedHosts then
        .failed [] (chars "Host " ++ hp.1 ++ chars " is not allowed")
      else
        match buildAttempts hp.1 p cfg.fallbacks with
        | .error e => .failed [] e
        | .ok attempts =>
          match connectLoopGo dial attempts 0 with
          | (dialed, none) =>
            .connected dialed
              (match firstPayload with
               | some s => if s.isEmpty then [] else [s]
               | none => [])
          | (dialed, some msg) => .failed dialed msg

/-- An incoming WebSocket message event (string data or binary
data). -/
inductive WsFrame
  | text (s : List Char)
  | binary (b : List Nat)
deriving DecidableEq, Repr

/-- Result of `Message.parse`. -/
inductive ParsedMsg
  | connect (payload : List Char)
  | dataText (payload : List Char)
  | dataBin (payload : List Nat)
  | errorMsg (payload : List Char)
  | ping
  | pong
  | closeCmd
  | raw (s : List Char)
deriving DecidableEq, Repr

/-- Model of `Message.parse`: prefix dispatch for text frames (in
source order), every binary frame becomes `DATA`. -/
def messageParse : WsFrame → ParsedMsg
  | .text s =>
    if (chars "CONNECT:").isPrefixOf s then .connect (s.drop 8)
    else if (chars "DATA:").isPrefixOf s then .dataText (s.drop 5)
    else if (chars "ERROR:").isPrefixOf s then .errorMsg (s.drop 6)
    else if s = chars "PING" then .ping
    else if s = chars "PONG" then .pong
    else if s = chars "CLOSE" then .closeCmd
    else .raw s
  | .binary b => .dataBin b

/-- The split of a `CONNECT` payload at the first `|`
(`payload.indexOf("|")`): without a separator the whole payload is the
target and the first payload is `null` (`none`). -/
def connectSplit (payload : List Char) : List Char × Option (List Char) :=
  match idxOf? '|' payload with
  | some i => (payload.take i, some (payload.drop (i + 1)))
  | none => (payload, none)

/-- Observable session state of a `TcpWsSession`: whether a remote
socket is held (`this.remote` non-null) and whether the session is
disposed (`this.closed`). -/
structure TcpState where
  hasRemote : Bool
  closed : Bool
deriving DecidableEq, Repr

/-- Externally visible effects of handling one message. -/
inductive Eff
  | sendText (s : List Char)
  | sendErr (msg : List Char)
  | writeUpstream (s : List Char)
  | writeUpstreamBin (b : List Nat)
  | dialTo (a : Attempt)
  | dispose
deriving DecidableEq, Repr

/-- Model of `_onWsMessage`: the per-frame dispatch of `TcpWsSession`,
including the `catch` that converts a thrown `_connectRemote` error
into `sendError` plus `_dispose`. -/
def tcpOnMessage (cfg : TcpCfg) (dial : Nat → DialOutcome)
    (st : TcpState) (f : WsFrame) : TcpState × List Eff :=
  if st.closed then (st, [])
  else
    match messageParse f with
    | .ping => (st, [.sendText (chars "PONG")])
    | .pong => (st, [])
    | .closeCmd => ({ st with closed := true }, [.dispose])
    | .connect payload =>
      match connectRemote cfg dial (connectSplit payload).1 (connectSplit payload).2 with
      | .connected dialed writes =>
        ({ st with hasRemote := true },
          dialed.map Eff.dialTo ++ writes.map Eff.writeUpstream ++
            [.sendText (chars "CONNECTED")])
      | .failed dialed msg =>
        ({ st with closed := true },
          dialed.map Eff.dialTo ++ [.sendErr msg, .dispose])
    | .dataText p => if st.hasRemote then (st, [.writeUpstream p]) else (st, [])
    | .dataBin b => if st.hasRemote then (st, [.writeUpstreamBin b]) else (st, [])
    | .errorMsg _ => (st, [])
    | .raw _ => (st, [])

/-- Model of the `SessionPool` counter state together with the sessions
created by `fetch` (`sessions` holds one `closed` latch per created
session; `current` is kept as an `Int` so that "never negative" is a
statement, not a typing artifact). -/
structure PoolSt where
  maxS : Nat
  current : Int
  sessions : List Bool
deriving DecidableEq, Repr

/-- Pool-relevant events: a WebSocket upgrade request reaching the
admission check (with the outcome of `serverWs.accept()`), or a call of
`_dispose` on the session with the given id. -/
inductive PoolEvent
  | upgrade (acceptOk : Bool)
  | dispose (id : Nat)
deriving DecidableEq, Repr

/-- One step of the pool state machine, returning the HTTP status
produced by `fetch` (and `0` for a dispose).  `upgrade`: `acquire()`
fails at capacity (503, nothing changes); on success the counter is
incremented and either a session is created (101) or `accept()` throws
and the slot is released again (500).  `dispose id`: the `closed` latch
makes the release happen at most once per session
(`Math.max(current - 1, 0)` as in `release()`). -/
def poolStep (st : PoolSt) : PoolEvent → PoolSt × Nat
  | .upgrade acceptOk =>
    if (st.maxS : Int) ≤ st.current then (st, 503)
    else if acceptOk then
      ({ st with current := st.current + 1, sessions := st.sessions ++ [false] }, 101)
    else
      ({ st with current := max (st.current + 1 - 1) 0 }, 500)
  | .dispose id =>
    if st.sessions.getD id true then (st, 0)
    else
      ({ st with
          current := max (st.current - 1) 0
          sessions := st.sessions.set id true }, 0)

/-- Run a sequence of pool events from the initial (empty) pool. -/
def poolRun (maxS : Nat) (evs : List PoolEvent) : PoolSt :=
  evs.foldl (fun st e => (poolStep st e).1) ⟨maxS, 0, []⟩

/-- Number of live (not yet disposed) sessions. -/
def liveCount (st : PoolSt) : Nat :=
  st.sessions.countP (fun b => !b)

end TcpWs

namespace WorkerJs

/-! ## Egress worker, `ProxySession` variant (`src/worker.js`)

Models its `parseAddress` (with the `parseInt(...) || 443` default) and
the `CONNECT` split of `handleMessage` (which uses `substring` with the
`-1` returned by a failed `indexOf`). -/

/-- Model of the `|| 443` applied to `parseInt` in
`worker.js parseAddress`: `NaN` and `0` are falsy and become `443`. -/
def or443 : Option Int → Int
  | none => 443
  | some v => if v = 0 then 443 else v

/-- Model of `parseAddress` in `worker.js` (also the one of the
`WebSocketSession` Durable-Object variant, which differs only in its
default): the port is `parseInt(..., 10) || 443`. -/
def parseAddress (addr : List Char) : Except (List Char) (List Char × Int) :=
  if addr.head? = some '[' then
    match idxOf? ']' addr with
    | none => .error (chars "Invalid IPv6 address")
    | some e => .ok ((addr.drop 1).take (e - 1), or443 (jsParseInt (addr.drop (e + 2))))
  else
    match lastIdxOf? ':' addr with
    | none => .error (chars "Invalid address format")
    | some sep => .ok (addr.take sep, or443 (jsParseInt (addr.drop (sep + 1))))

/-- Model of the `CONNECT` split in `ProxySession.handleMessage`:
`sepIndex = data.indexOf("|", 8)`,
`targetAddr = data.substring(8, sepIndex)`,
`firstFrame = data.substring(sepIndex + 1)` — applied to the **whole**
frame text, with JS `substring` clamp-and-swap semantics when
`sepIndex` is `-1`. -/
def connectSplit (data : List Char) : List Char × List Char :=
  (jsSubstring data 8 (jsIndexOfFrom data '|' 8),
   jsSubstring data (jsIndexOfFrom data '|' 8 + 1) (data.length : Int))

end WorkerJs

namespace Core

/-! ## Ingress Go proxy (`core` package) -/

/-- Model of `shouldBypassProxy` (`true` = direct, `false` = tunnel).
`parsed` is the result of `net.ParseIP(targetHost)`; `lookup` is the
result of `net.LookupIP(targetHost)` (`none` = resolver error), both
oracle inputs. -/
def shouldBypassProxy (mode : String) (r4 r6 : List ipRange)
    (parsed : Option IPAddr) (lookup : Option (List IPAddr)) : Bool :=
  if mode = "none" then true
  else if mode = "global" then false
  else if mode = "bypass_cn" then
    match parsed with
    | some ip => isChinaIP r4 r6 ip
    | none =>
      match lookup with
      | none => false
      | some ips => ips.any (isChinaIP r4 r6)
  else false

/-- What `handleUDPRelay` does with one inbound datagram. -/
inductive UDPAction
  | drop
  | dnsForward (header payload : List Nat) (dstPort : Nat)
  | logDrop (dstPort : Nat)
deriving DecidableEq, Repr

/-- Port-53 dispatch at the end of the per-datagram handling: DNS goes
to `handleDNSQuery` with the original SOCKS5 header bytes, everything
else is logged and dropped. -/
def udpDispatch (data : List Nat) (headerLen dstPort : Nat) : UDPAction :=
  if dstPort = 53 then .dnsForward (data.take headerLen) (data.drop headerLen) dstPort
  else .logDrop dstPort

/-- Model of the per-datagram body of `handleUDPRelay`: length check,
`FRAG` (byte 2) must be zero, `ATYP` (byte 3) dispatch with the
per-type length checks, then the port-53 test. -/
def handleUDPDatagram (data : List Nat) : UDPAction :=
  if data.length < 10 then .drop
  else if data.getD 2 0 ≠ 0 then .drop
  else
    match data.getD 3 0 with
    | 1 =>
      if data.length < 10 then .drop
      else udpDispatch data 10 ((data.getD 8 0) * 256 + data.getD 9 0)
    | 3 =>
      if data.length < 5 then .drop
      else if data.length < 7 + data.getD 4 0 then .drop
      else udpDispatch data (7 + data.getD 4 0)
        ((data.getD (5 + data.getD 4 0) 0) * 256 + data.getD (6 + data.getD 4 0) 0)
    | 4 =>
      if data.length < 22 then .drop
      else udpDispatch data 22 ((data.getD 20 0) * 256 + data.getD 21 0)
    | _ => .drop

/-- Header length of a well-formed SOCKS5 UDP datagram (`none` when the
datagram fails one of the checks of `handleUDPDatagram`); used to state
the claim. -/
def udpHeaderLen (data : List Nat) : Option Nat :=
  if data.length < 10 then none
  else if data.getD 2 0 ≠ 0 then none
  else
    match data.getD 3 0 with
    | 1 => some 10
    | 3 => if data.length < 7 + data.getD 4 0 then none else some (7 + data.getD 4 0)
    | 4 => if data.length < 22 then none else some 22
    | _ => none

/-- Destination port of a datagram with header length `hl` (always the
last two header bytes). -/
def udpDstPort (data : List Nat) (hl : Nat) : Nat :=
  (data.getD (hl - 2) 0) * 256 + data.getD (hl - 1) 0

/-- Model of the response assembly in `handleDNSQuery`: the SOCKS5
header bytes of the request datagram, then the DoH response body. -/
def handleDNSQueryResponse (socks5Header dohResponse : List Nat) : List Nat :=
  socks5Header ++ dohResponse

/-- Model of the body handling of the forward-proxy branch of
`handleHTTP`: with a non-empty `Content-Length` header value, scan it
with `%d`; read and append exactly that many body bytes when
`length > 0 && length < 10*1024*1024` and the read succeeds (enough
bytes available); otherwise append nothing. -/
def proxyRequestBody (contentLength : List Char) (available : List Nat) : List Nat :=
  if contentLength = [] then []
  else if 0 < sscanfInt contentLength ∧ sscanfInt contentLength < 10485760 then
    if (sscanfInt contentLength).toNat ≤ available.length then
      available.take (sscanfInt contentLength).toNat
    else []
  else []

/-- Byte content of the text frame `CLOSE` (`gorilla/websocket`
delivers text frames as bytes; `string(msg) == "CLOSE"`). -/
def closeFrameBytes : List Nat := [67, 76, 79, 83, 69]

/-- Message type tag of `websocket.TextMessage`. -/
def wsTextMessage : Nat := 1

/-- Model of the `Server -> Client` loop of `handleTunnel`: for each
received frame `(messageType, payload)`, an exact text `CLOSE` frame
terminates the loop; **every** other frame (binary or text) has its
payload written to the client socket verbatim.  The result is the list
of writes, in order. -/
def tunnelServerToClient : List (Nat × List Nat) → List (List Nat)
  | [] => []
  | (mt, msg) :: rest =>
    if mt = wsTextMessage ∧ msg = closeFrameBytes then []
    else msg :: tunnelServerToClient rest

end Core

/-! ### Lemmas about the selection sort -/

theorem selectMin_length (m : ipRange) (l : List ipRange) :
    (selectMin m l).2.length = l.length := by
  induction l generalizing m with
  | nil => simp [selectMin]
  | cons x xs ih =>
    by_cases h : x.start < m.start <;> simp [selectMin, h, ih]

theorem selectMin_perm (m : ipRange) (l : List ipRange) :
    List.Perm ((selectMin m l).1 :: (selectMin m l).2) (m :: l) := by
  induction l generalizing m with
  | nil => simp [selectMin]
  | cons x xs ih =>
    by_cases h : x.start < m.start
    · simp only [selectMin, if_pos h]
      exact (List.Perm.swap m _ _).trans ((ih x).cons m)
    · simp only [selectMin, if_neg h]
      exact ((List.Perm.swap x _ _).trans ((ih m).cons x)).trans
        (List.Perm.swap m x xs)

theorem selectMin_min (m : ipRange) (l : List ipRange) :
    ∀ y ∈ m :: l, (selectMin m l).1.start ≤ y.start := by
  induction l generalizing m with
  | nil =>
    intro y hy
    simp only [List.mem_cons, List.not_mem_nil, or_false] at hy
    subst hy
    simp [selectMin]
  | cons x xs ih =>
    intro y hy
    by_cases h : x.start < m.start
    · simp only [selectMin, if_pos h]
      rcases List.mem_cons.1 hy with rfl | hy'
      · exact le_of_lt (lt_of_le_of_lt (ih x x (List.mem_cons_self _ _)) h)
      · exact ih x y hy'
    · simp only [selectMin, if_neg h]
      rcases List.mem_cons.1 hy with rfl | hy'
      · exact ih _ _ (List.mem_cons_self _ _)
      · rcases List.mem_cons.1 hy' with rfl | hy''
        · exact le_trans (ih m m (List.mem_cons_self _ _)) (not_lt.1 h)
        · exact ih m y (List.mem_cons_of_mem _ hy'')

theorem selSortFuel_perm :
    ∀ (fuel : Nat) (l : List ipRange), l.length ≤ fuel →
      List.Perm (selSortFuel fuel l) l := by
  intro fuel
  induction fuel with
  | zero =>
    intro l hl
    match l, hl with
    | [], _ => simp [selSortFuel]
  | succ n ih =>
    intro l hl
    match l with
    | [] => simp [selSortFuel]
    | x :: xs =>
      simp only [selSortFuel]
      have hlen : (selectMin x xs).2.length ≤ n := by
        rw [selectMin_length]
        simpa using Nat.le_of_succ_le_succ hl
      exact ((ih _ hlen).cons _).trans (selectMin_perm x xs)

theorem selSortFuel_sorted :
    ∀ (fuel : Nat) (l : List ipRange), l.length ≤ fuel →
      List.Sorted (fun a b : ipRange => a.start ≤ b.start)
        (selSortFuel fuel l) := by
  intro fuel
  induction fuel with
  | zero =>
    intro l hl
    match l, hl with
    | [], _ => simp [selSortFuel]
  | succ n ih =>
    intro l hl
    match l with
    | [] => simp [selSortFuel]
    | x :: xs =>
      simp only [selSortFuel]
      have hlen : (selectMin x xs).2.length ≤ n := by
        rw [selectMin_length]
        simpa using Nat.le_of_succ_le_succ hl
      rw [List.sorted_cons]
      refine ⟨?_, ih _ hlen⟩
      intro b hb
      have hbmem : b ∈ (selectMin x xs).2 :=
        (selSortFuel_perm n _ hlen).mem_iff.1 hb
      exact selectMin_min x xs b
        ((selectMin_perm x xs).mem_iff.1 (List.mem_cons_of_mem _ hbmem))

theorem sortRangesByStart_perm (l : List ipRange) :
    List.Perm (sortRangesByStart l) l :=
  selSortFuel_perm l.length l le_rfl

theorem sortRangesByStart_sorted (l : List ipRange) :
    List.Sorted (fun a b : ipRange => a.start ≤ b.start)
      (sortRangesByStart l) :=
  selSortFuel_sorted l.length l le_rfl

/-! ### Lemmas about the binary search -/

/-- Soundness: whenever the binary-search loop answers `true`, the
queried value really lies in one of the ranges of the table (no sortedness
needed). -/
theorem bsearchFuel_sound (rs : List ipRange) (x : Nat) :
    ∀ (fuel left right : Nat), right ≤ rs.length →
      bsearchFuel rs x fuel left right = true →
      ∃ rg ∈ rs, rg.start ≤ x ∧ x ≤ rg.endv := by
  intro fuel
  induction fuel with
  | zero => intro left right _ h; simp [bsearchFuel] at h
  | succ n ih =>
    intro left right hright h
    rw [bsearchFuel] at h
    by_cases hlr : left < right
    · rw [if_pos hlr] at h
      set mid := (left + right) / 2 with hmid
      have hmidlt : mid < rs.length := by
        have : mid < right := Nat.div_lt_of_lt_mul (by omega)
        omega
      have hget : rs.getD mid ⟨0, 0⟩ = rs[mid] := by
        rw [List.getD_eq_getElem?_getD, List.getElem?_eq_getElem hmidlt,
          Option.getD_some]
      by_cases h1 : x < (rs.getD mid ⟨0, 0⟩).start
      · rw [if_pos h1] at h
        exact ih left mid (by omega) h
      · rw [if_neg h1] at h
        by_cases h2 : (rs.getD mid ⟨0, 0⟩).endv < x
        · rw [if_pos h2] at h
          exact ih (mid + 1) right hright h
        · exact ⟨rs[mid], List.getElem_mem hmidlt,
            by rw [hget] at h1; omega, by rw [hget] at h2; omega⟩
    · rw [if_neg hlr] at h
      exact absurd h (by simp)

/-- A range table is separated when, in list order, each range ends
strictly before the next begins.  For a table of valid ranges
(`start ≤ end`) this is exactly "sorted by `start` and pairwise
non-overlapping". -/
def Separated (rs : List ipRange) : Prop :=
  List.Pairwise (fun a b : ipRange => a.endv < b.start) rs

instance (rs : List ipRange) : Decidable (Separated rs) := by
  unfold Separated; infer_instance

/-- Completeness of the binary-search loop on a separated table of
valid ranges: a value lying in the range at index `k` of the search
interval is found.  `fuel` must cover the interval width. -/
theorem bsearchFuel_complete (rs : List ipRange) (x : Nat)
    (hvalid : ∀ rg ∈ rs, rg.start ≤ rg.endv) (hsep : Separated rs) :
    ∀ (fuel left right k : Nat), right - left ≤ fuel →
      left ≤ k → k < right → right ≤ rs.length →
      (hk : k < rs.length) → rs[k].start ≤ x → x ≤ rs[k].endv →
      bsearchFuel rs x fuel left right = true := by
  have hpair : ∀ (i j : Nat) (hi : i < rs.length) (hj : j < rs.length),
      i < j → rs[i].endv < rs[j].start := by
    intro i j hi hj hij
    exact List.pairwise_iff_getElem.1 hsep i j hi hj hij
  intro fuel
  induction fuel with
  | zero => intro left right k hfuel hlk hkr _ _ _ _; omega
  | succ n ih =>
    intro left right k hfuel hlk hkr hright hk hstart hend
    have hlr : left < right := by omega
    rw [bsearchFuel, if_pos hlr]
    set mid := (left + right) / 2 with hmiddef
    have hmidlt : mid < right := Nat.div_lt_of_lt_mul (by omega)
    have hmidge : left ≤ mid := by
      rw [hmiddef]; exact Nat.le_div_iff_mul_le (by omega) |>.2 (by omega)
    have hmidlen : mid < rs.length := by omega
    have hget : rs.getD mid ⟨0, 0⟩ = rs[mid] := by
      rw [List.getD_eq_getElem?_getD, List.getElem?_eq_getElem hmidlen,
        Option.getD_some]
    rw [hget]
    by_cases h1 : x < rs[mid].start
    · rw [if_pos h1]
      have hkmid : k < mid := by
        by_contra hknot
        have hge : mid ≤ k := by omega
        rcases Nat.lt_or_ge mid k with hlt | hge2
        · have := hpair mid k hmidlen hk hlt
          have := hvalid rs[mid] (List.getElem_mem hmidlen)
          omega
        · have : k = mid := by omega
          subst this; omega
      exact ih left mid k (by omega) hlk hkmid (by omega) hk hstart hend
    · rw [if_neg h1]
      by_cases h2 : rs[mid].endv < x
      · rw [if_pos h2]
        have hkmid : mid < k := by
          by_contra hknot
          have hle : k ≤ mid := by omega
          rcases Nat.lt_or_ge k mid with hlt | hge2
          · have := hpair k mid hk hmidlen hlt
            have := hvalid rs[mid] (List.getElem_mem hmidlen)
            omega
          · have : k = mid := by omega
            subst this; omega
        exact ih (mid + 1) right k (by omega) (by omega) hkr hright hk
          hstart hend
      · rw [if_neg h2]

/-- Membership characterisation of `rangeContains` on a separated table
of valid ranges. -/
theorem rangeContains_iff (rs : List ipRange) (x : Nat)
    (hvalid : ∀ rg ∈ rs, rg.start ≤ rg.endv) (hsep : Separated rs) :
    rangeContains rs x = true ↔ ∃ rg ∈ rs, rg.start ≤ x ∧ x ≤ rg.endv := by
  constructor
  · exact bsearchFuel_sound rs x rs.length 0 rs.length le_rfl
  · rintro ⟨rg, hmem, h1, h2⟩
    obtain ⟨k, hk, rfl⟩ := List.getElem_of_mem hmem
    exact bsearchFuel_complete rs x hvalid hsep rs.length 0 rs.length k
      (by omega) (Nat.zero_le _) hk le_rfl hk h1 h2

/-! ### Facts about the loaded table -/

theorem loadChinaIPList_valid (entries : List (Nat × Nat)) :
    ∀ rg ∈ loadChinaIPList entries, 0 < rg.start ∧ rg.start ≤ rg.endv := by
  intro rg hm
  have hm' := (sortRangesByStart_perm _).mem_iff.1 hm
  obtain ⟨e, he, rfl⟩ := List.mem_map.1 hm'
  have := List.of_mem_filter he
  simp only [decide_eq_true_eq] at this
  exact ⟨this.1, this.2.2⟩

theorem loadChinaIPList_sorted (entries : List (Nat × Nat)) :
    List.Sorted (fun a b : ipRange => a.start ≤ b.start)
      (loadChinaIPList entries) :=
  sortRangesByStart_sorted _

/-! ## Claim C1 -/

/-- C1, counterexample.  The claim asserts that after `loadChinaIPList`
the membership test is exact "even when loaded ranges overlap".  With
the two overlapping ranges `[1, 100]` and `[2, 3]` the loaded table is
sorted, `50` lies in the loaded range `[1, 100]`, yet the binary search
of `isChinaIP` answers `false` (it lands on `[2, 3]` and discards the
half containing `[1, 100]`). -/
theorem c1_counterexample :
    loadChinaIPList [(1, 100), (2, 3)] = [⟨1, 100⟩, ⟨2, 3⟩] ∧
    (⟨1, 100⟩ : ipRange) ∈ loadChinaIPList [(1, 100), (2, 3)] ∧
    ((⟨1, 100⟩ : ipRange).start ≤ 50 ∧ 50 ≤ (⟨1, 100⟩ : ipRange).endv) ∧
    isChinaIP (loadChinaIPList [(1, 100), (2, 3)]) [] (.v4 50) = false := by
  decide

/-- C1, amended.  After `loadChinaIPList` the IPv4 range table is
sorted ascending by range start; and **provided the loaded ranges are
pairwise non-overlapping** (the invariant the spec states), the
binary-search membership test `isChinaIP` answers `true` exactly for
the IPv4 addresses lying in at least one loaded range.  (With
overlapping ranges the search can miss, as the counterexample
shows.) -/
theorem c1_amended (entries : List (Nat × Nat)) :
    List.Sorted (fun a b : ipRange => a.start ≤ b.start)
      (loadChinaIPList entries) ∧
    ∀ (r6 : List ipRange) (x : Nat),
      Separated (loadChinaIPList entries) →
      (isChinaIP (loadChinaIPList entries) r6 (.v4 x) = true ↔
        inRangeTable (loadChinaIPList entries) x) := by
  refine ⟨loadChinaIPList_sorted entries, ?_⟩
  intro r6 x hsep
  have hvalid := loadChinaIPList_valid entries
  by_cases hx : x = 0
  · subst hx
    simp only [isChinaIP, if_pos rfl]
    constructor
    · intro h; exact absurd h (by simp)
    · rintro ⟨rg, hmem, h1, _⟩
      have := (hvalid rg hmem).1
      omega
  · simp only [isChinaIP, if_neg hx]
    exact rangeContains_iff _ x (fun rg h => (hvalid rg h).2) hsep

/-- C1, witness for the amended theorem at a concrete separated
table. -/
theorem c1_witness :
    List.Sorted (fun a b : ipRange => a.start ≤ b.start)
      (loadChinaIPList [(7, 9), (1, 5)]) ∧
    (isChinaIP (loadChinaIPList [(7, 9), (1, 5)]) [] (.v4 8) = true ↔
      inRangeTable (loadChinaIPList [(7, 9), (1, 5)]) 8) :=
  ⟨(c1_amended [(7, 9), (1, 5)]).1,
   (c1_amended [(7, 9), (1, 5)]).2 [] 8 (by decide)⟩

/-! ### Lemmas about `Message.parse` -/

theorem isPrefixOf_append_self (l p : List Char) :
    l.isPrefixOf (l ++ p) = true := by
  rw [List.isPrefixOf_iff_prefix]
  exact List.prefix_append l p

theorem messageParse_dataText (p : List Char) :
    TcpWs.messageParse (.text (chars "DATA:" ++ p)) = .dataText p := by
  have h1 : (chars "CONNECT:").isPrefixOf (chars "DATA:" ++ p) = false := rfl
  have h2 : (chars "DATA:").isPrefixOf (chars "DATA:" ++ p) = true :=
    isPrefixOf_append_self _ p
  have h3 : (chars "DATA:" ++ p).drop 5 = p := List.drop_left (chars "DATA:") p
  simp only [TcpWs.messageParse, h1, h2, h3, Bool.false_eq_true, if_false,
    if_true]

theorem messageParse_connect (p : List Char) :
    TcpWs.messageParse (.text (chars "CONNECT:" ++ p)) = .connect p := by
  have h1 : (chars "CONNECT:").isPrefixOf (chars "CONNECT:" ++ p) = true :=
    isPrefixOf_append_self _ p
  have h3 : (chars "CONNECT:" ++ p).drop 8 = p := List.drop_left (chars "CONNECT:") p
  simp only [TcpWs.messageParse, h1, h3, if_true]

/-! ## Claim C2 -/

/-- C2, counterexample.  The claim asserts that in the `INIT` state
(no remote yet, not closed) any binary frame makes the session send an
`ERROR` frame and close.  In `TcpWsSession._onWsMessage` a binary
frame parses to `DATA`, and with `this.remote` still null the `DATA`
branch does nothing: no frame is sent, nothing is written, the session
stays open — the frame is silently discarded. -/
theorem c2_counterexample :
    (TcpWs.tcpOnMessage ⟨[], []⟩ (fun _ => TcpWs.DialOutcome.ok)
        ⟨false, false⟩ (TcpWs.WsFrame.binary [0])).2 = [] ∧
    (TcpWs.tcpOnMessage ⟨[], []⟩ (fun _ => TcpWs.DialOutcome.ok)
        ⟨false, false⟩ (TcpWs.WsFrame.binary [0])).1.closed = false := by
  exact ⟨rfl, rfl⟩

/-- C2, amended.  In the `INIT` state (no remote held, not closed) a
binary frame or a `DATA:` text frame is **silently discarded**: the
session state is unchanged and no effect at all is produced — in
particular no `ERROR` frame is sent and the session does not close. -/
theorem c2_amended (cfg : TcpWs.TcpCfg) (dial : Nat → TcpWs.DialOutcome)
    (st : TcpWs.TcpState) (b : List Nat) (p : List Char)
    (h1 : st.hasRemote = false) (h2 : st.closed = false) :
    TcpWs.tcpOnMessage cfg dial st (.binary b) = (st, []) ∧
    TcpWs.tcpOnMessage cfg dial st (.text (chars "DATA:" ++ p)) = (st, []) := by
  obtain ⟨hr, cl⟩ := st
  simp only at h1 h2
  subst h1; subst h2
  refine ⟨rfl, ?_⟩
  simp only [TcpWs.tcpOnMessage, messageParse_dataText]
  rfl

/-- C2, witness for the amended theorem. -/
theorem c2_witness :
    TcpWs.tcpOnMessage ⟨[], []⟩ (fun _ => TcpWs.DialOutcome.ok)
        ⟨false, false⟩ (.binary [1, 2, 3]) = (⟨false, false⟩, []) ∧
    TcpWs.tcpOnMessage ⟨[], []⟩ (fun _ => TcpWs.DialOutcome.ok)
        ⟨false, false⟩ (.text (chars "DATA:" ++ chars "hi")) =
      (⟨false, false⟩, []) :=
  c2_amended ⟨[], []⟩ (fun _ => TcpWs.DialOutcome.ok) ⟨false, false⟩
    [1, 2, 3] (chars "hi") rfl rfl

/-! ## Claim C8 -/

/-- C8, counterexample.  The claim includes `L = 10 MiB` (10485760
bytes, "inclusive") among the lengths whose body is forwarded, but the
source test is strict (`length < 10*1024*1024`): at exactly 10 MiB the
rebuilt request contains no body bytes even though enough bytes are
available. -/
theorem c8_counterexample :
    Core.proxyRequestBody (chars "10485760") (List.replicate 10485760 0) = [] ∧
    (List.replicate 10485760 (0 : Nat)).length = 10485760 ∧
    sscanfInt (chars "10485760") = 10485760 := by
  refine ⟨rfl, by rw [List.length_replicate], rfl⟩

/-- C8, amended.  With a present `Content-Length` header scanning to
`L` and at least `L` body bytes available, the rebuilt request includes
exactly `L` body bytes whenever `0 < L < 10 MiB` (**strictly** below
10485760), and includes no body bytes otherwise (`L ≤ 0` or
`L ≥ 10 MiB`). -/
theorem c8_amended (cl : List Char) (L : Int) (avail : List Nat)
    (hcl : cl ≠ []) (hscan : sscanfInt cl = L)
    (havail : L.toNat ≤ avail.length) :
    (0 < L ∧ L < 10485760 →
      Core.proxyRequestBody cl avail = avail.take L.toNat ∧
      (Core.proxyRequestBody cl avail).length = L.toNat) ∧
    (L ≤ 0 ∨ 10485760 ≤ L → Core.proxyRequestBody cl avail = []) := by
  constructor
  · rintro ⟨h1, h2⟩
    have hcond : 0 < sscanfInt cl ∧ sscanfInt cl < 10485760 := by
      rw [hscan]; exact ⟨h1, h2⟩
    have hrd : (sscanfInt cl).toNat ≤ avail.length := by
      rw [hscan]; exact havail
    unfold Core.proxyRequestBody
    rw [if_neg hcl, if_pos hcond, if_pos hrd, hscan]
    refine ⟨rfl, ?_⟩
    rw [List.length_take]
    exact min_eq_left havail
  · intro hout
    have hcond : ¬(0 < sscanfInt cl ∧ sscanfInt cl < 10485760) := by
      rw [hscan]; omega
    unfold Core.proxyRequestBody
    rw [if_neg hcl, if_neg hcond]

/-- C8, witness for the amended theorem at `L = 5`. -/
theorem c8_witness :
    (0 < (5 : Int) ∧ (5 : Int) < 10485760 →
      Core.proxyRequestBody (chars "5") [1, 2, 3, 4, 5, 6, 7] =
        [1, 2, 3, 4, 5, 6, 7].take (5 : Int).toNat ∧
      (Core.proxyRequestBody (chars "5") [1, 2, 3, 4, 5, 6, 7]).length =
        (5 : Int).toNat) ∧
    ((5 : Int) ≤ 0 ∨ 10485760 ≤ (5 : Int) →
      Core.proxyRequestBody (chars "5") [1, 2, 3, 4, 5, 6, 7] = []) :=
  c8_amended (chars "5") 5 [1, 2, 3, 4, 5, 6, 7] (by decide) (by decide)
    (by decide)

/-! ## Claim C6 -/

/-- Characterisation of `isChinaIP` as interval membership, on tables
satisfying the load-time shape (positive starts for IPv4, valid
ranges) and the non-overlap invariant. -/
theorem isChinaIP_iff_mem (r4 r6 : List ipRange)
    (hv4 : ∀ rg ∈ r4, 0 < rg.start ∧ rg.start ≤ rg.endv) (hs4 : Separated r4)
    (hv6 : ∀ rg ∈ r6, rg.start ≤ rg.endv) (hs6 : Separated r6) (ip : IPAddr) :
    isChinaIP r4 r6 ip = true ↔ addrInTables r4 r6 ip := by
  cases ip with
  | v4 a =>
    by_cases ha : a = 0
    · subst ha
      simp only [isChinaIP, if_pos rfl, addrInTables]
      constructor
      · intro h; cases h
      · rintro ⟨rg, hm, h1, _⟩
        have := (hv4 rg hm).1
        omega
    · simp only [isChinaIP, if_neg ha, addrInTables]
      exact rangeContains_iff r4 a (fun rg h => (hv4 rg h).2) hs4
  | v6 a =>
    simp only [isChinaIP, addrInTables]
    exact rangeContains_iff r6 a hv6 hs6

/-- C6.  Routing decision of `shouldBypassProxy` (`true` = direct), on
range tables with the load-time shape and the non-overlap invariant:
mode `none` is always direct; mode `global` is always tunnel; mode
`bypass_cn` is direct for a parsed IP literal exactly when the address
is in the matching range table, tunnel when name resolution fails, and
for a resolved name direct exactly when at least one resolved address
is in a range; any other mode is tunnel. -/
theorem c6_routing_policy (mode : String) (r4 r6 : List ipRange)
    (parsed : Option IPAddr) (lookup : Option (List IPAddr))
    (hv4 : ∀ rg ∈ r4, 0 < rg.start ∧ rg.start ≤ rg.endv) (hs4 : Separated r4)
    (hv6 : ∀ rg ∈ r6, rg.start ≤ rg.endv) (hs6 : Separated r6) :
    (mode = "none" → Core.shouldBypassProxy mode r4 r6 parsed lookup = true) ∧
    (mode = "global" → Core.shouldBypassProxy mode r4 r6 parsed lookup = false) ∧
    (mode = "bypass_cn" →
      (∀ ip, parsed = some ip →
        (Core.shouldBypassProxy mode r4 r6 parsed lookup = true ↔
          addrInTables r4 r6 ip)) ∧
      (parsed = none → lookup = none →
        Core.shouldBypassProxy mode r4 r6 parsed lookup = false) ∧
      (∀ ips, parsed = none → lookup = some ips →
        (Core.shouldBypassProxy mode r4 r6 parsed lookup = true ↔
          ∃ ip ∈ ips, addrInTables r4 r6 ip))) ∧
    (mode ≠ "none" → mode ≠ "global" → mode ≠ "bypass_cn" →
      Core.shouldBypassProxy mode r4 r6 parsed lookup = false) := by
  refine ⟨?_, ?_, ?_, ?_⟩
  · intro h; subst h; rfl
  · intro h; subst h; rfl
  · intro h; subst h
    refine ⟨?_, ?_, ?_⟩
    · intro ip hip
      unfold Core.shouldBypassProxy
      rw [if_neg (by decide : ¬("bypass_cn" : String) = "none"),
        if_neg (by decide : ¬("bypass_cn" : String) = "global"),
        if_pos rfl, hip]
      exact isChinaIP_iff_mem r4 r6 hv4 hs4 hv6 hs6 ip
    · intro hp hl
      unfold Core.shouldBypassProxy
      rw [if_neg (by decide : ¬("bypass_cn" : String) = "none"),
        if_neg (by decide : ¬("bypass_cn" : String) = "global"),
        if_pos rfl, hp, hl]
    · intro ips hp hl
      unfold Core.shouldBypassProxy
      rw [if_neg (by decide : ¬("bypass_cn" : String) = "none"),
        if_neg (by decide : ¬("bypass_cn" : String) = "global"),
        if_pos rfl, hp, hl]
      show (ips.any (isChinaIP r4 r6)) = true ↔ _
      rw [List.any_eq_true]
      constructor
      · rintro ⟨ip, hm, h⟩
        exact ⟨ip, hm, (isChinaIP_iff_mem r4 r6 hv4 hs4 hv6 hs6 ip).1 h⟩
      · rintro ⟨ip, hm, h⟩
        exact ⟨ip, hm, (isChinaIP_iff_mem r4 r6 hv4 hs4 hv6 hs6 ip).2 h⟩
  · intro h1 h2 h3
    unfold Core.shouldBypassProxy
    rw [if_neg h1, if_neg h2, if_neg h3]

/-- C6, witness at a concrete table and a parsed IPv4 literal. -/
theorem c6_witness :
    (("bypass_cn" : String) = "none" →
      Core.shouldBypassProxy "bypass_cn" [⟨1, 5⟩] [] (some (.v4 3)) none = true) ∧
    (("bypass_cn" : String) = "global" →
      Core.shouldBypassProxy "bypass_cn" [⟨1, 5⟩] [] (some (.v4 3)) none = false) ∧
    (("bypass_cn" : String) = "bypass_cn" →
      (∀ ip, (some (IPAddr.v4 3)) = some ip →
        (Core.shouldBypassProxy "bypass_cn" [⟨1, 5⟩] [] (some (.v4 3)) none = true ↔
          addrInTables [⟨1, 5⟩] [] ip)) ∧
      ((some (IPAddr.v4 3)) = none → (none : Option (List IPAddr)) = none →
        Core.shouldBypassProxy "bypass_cn" [⟨1, 5⟩] [] (some (.v4 3)) none = false) ∧
      (∀ ips, (some (IPAddr.v4 3)) = none → (none : Option (List IPAddr)) = some ips →
        (Core.shouldBypassProxy "bypass_cn" [⟨1, 5⟩] [] (some (.v4 3)) none = true ↔
          ∃ ip ∈ ips, addrInTables [⟨1, 5⟩] [] ip))) ∧
    (("bypass_cn" : String) ≠ "none" → ("bypass_cn" : String) ≠ "global" →
      ("bypass_cn" : String) ≠ "bypass_cn" →
      Core.shouldBypassProxy "bypass_cn" [⟨1, 5⟩] [] (some (.v4 3)) none = false) :=
  c6_routing_policy "bypass_cn" [⟨1, 5⟩] [] (some (.v4 3)) none
    (by decide) (by decide) (by decide) (by decide)

/-! ## Claim C7 -/

/-- Equation form of the per-datagram UDP relay handling: a datagram
failing the header checks is dropped; a well-formed one goes to the
port-53 dispatch. -/
theorem handleUDPDatagram_eq (data : List Nat) :
    Core.handleUDPDatagram data =
      (match Core.udpHeaderLen data with
       | none => Core.UDPAction.drop
       | some hl => Core.udpDispatch data hl (Core.udpDstPort data hl)) := by
  unfold Core.handleUDPDatagram Core.udpHeaderLen
  by_cases h10 : data.length < 10
  · simp only [if_pos h10]
  · simp only [if_neg h10]
    by_cases hf : data.getD 2 0 ≠ 0
    · simp only [if_pos hf]
    · simp only [if_neg hf]
      generalize data.getD 3 0 = v
      rcases v with _ | _ | _ | _ | _ | n
      · rfl
      · rfl
      · rfl
      · have h5 : ¬data.length < 5 := by omega
        simp only [if_neg h5]
        by_cases hd : data.length < 7 + data.getD 4 0
        · simp only [if_pos hd]
        · simp only [if_neg hd]
          have e1 : 7 + data.getD 4 0 - 2 = 5 + data.getD 4 0 := by omega
          have e2 : 7 + data.getD 4 0 - 1 = 6 + data.getD 4 0 := by omega
          show Core.udpDispatch data (7 + data.getD 4 0)
              (data.getD (5 + data.getD 4 0) 0 * 256 +
                data.getD (6 + data.getD 4 0) 0) =
            Core.udpDispatch data (7 + data.getD 4 0)
              (Core.udpDstPort data (7 + data.getD 4 0))
          unfold Core.udpDstPort
          rw [e1, e2]
      · by_cases h22 : data.length < 22
        · simp only [if_pos h22]
        · simp only [if_neg h22]
          rfl
      · rfl

/-- C7.  In the SOCKS5 UDP relay: every datagram whose FRAG byte
(offset 2) is non-zero is silently dropped; every datagram failing the
well-formedness checks is dropped; a well-formed datagram is forwarded
as a DoH request exactly when its destination port is 53 (carrying its
header bytes and payload bytes), and is logged and dropped for any
other port; and the relayed DNS answer is the original SOCKS5 header
bytes followed by the DoH response body. -/
theorem c7_udp_dns_only (data : List Nat) :
    (data.getD 2 0 ≠ 0 → Core.handleUDPDatagram data = .drop) ∧
    (Core.udpHeaderLen data = none → Core.handleUDPDatagram data = .drop) ∧
    (∀ hl, Core.udpHeaderLen data = some hl →
      Core.handleUDPDatagram data =
        if Core.udpDstPort data hl = 53 then
          Core.UDPAction.dnsForward (data.take hl) (data.drop hl)
            (Core.udpDstPort data hl)
        else Core.UDPAction.logDrop (Core.udpDstPort data hl)) ∧
    (∀ hdr body, Core.handleDNSQueryResponse hdr body = hdr ++ body) := by
  refine ⟨?_, ?_, ?_, fun hdr body => rfl⟩
  · intro hfrag
    have hnone : Core.udpHeaderLen data = none := by
      unfold Core.udpHeaderLen
      by_cases h10 : data.length < 10
      · rw [if_pos h10]
      · rw [if_neg h10, if_pos hfrag]
    rw [handleUDPDatagram_eq, hnone]
  · intro hnone
    rw [handleUDPDatagram_eq, hnone]
  · intro hl hsome
    rw [handleUDPDatagram_eq, hsome]
    rfl

/-- C7, witness: a datagram with FRAG=1 is dropped; a well-formed IPv4
datagram to port 53 is forwarded with its header and payload; one to
port 80 is logged and dropped; and the DNS answer is header ++ body. -/
theorem c7_witness :
    Core.handleUDPDatagram [0, 0, 1, 1, 1, 2, 3, 4, 0, 53] = .drop ∧
    Core.handleUDPDatagram [0, 0, 0, 1, 1, 2, 3, 4, 0, 53, 9] =
      (if Core.udpDstPort [0, 0, 0, 1, 1, 2, 3, 4, 0, 53, 9] 10 = 53 then
        Core.UDPAction.dnsForward
          ([0, 0, 0, 1, 1, 2, 3, 4, 0, 53, 9].take 10)
          ([0, 0, 0, 1, 1, 2, 3, 4, 0, 53, 9].drop 10)
          (Core.udpDstPort [0, 0, 0, 1, 1, 2, 3, 4, 0, 53, 9] 10)
      else Core.UDPAction.logDrop (Core.udpDstPort [0, 0, 0, 1, 1, 2, 3, 4, 0, 53, 9] 10)) ∧
    Core.handleUDPDatagram [0, 0, 0, 1, 1, 2, 3, 4, 0, 80, 9] =
      (if Core.udpDstPort [0, 0, 0, 1, 1, 2, 3, 4, 0, 80, 9] 10 = 53 then
        Core.UDPAction.dnsForward
          ([0, 0, 0, 1, 1, 2, 3, 4, 0, 80, 9].take 10)
          ([0, 0, 0, 1, 1, 2, 3, 4, 0, 80, 9].drop 10)
          (Core.udpDstPort [0, 0, 0, 1, 1, 2, 3, 4, 0, 80, 9] 10)
      else Core.UDPAction.logDrop (Core.udpDstPort [0, 0, 0, 1, 1, 2, 3, 4, 0, 80, 9] 10)) ∧
    Core.handleDNSQueryResponse [1, 2] [3] = [1, 2] ++ [3] :=
  ⟨(c7_udp_dns_only _).1 (by decide),
   (c7_udp_dns_only _).2.2.1 10 (by decide),
   (c7_udp_dns_only [0, 0, 0, 1, 1, 2, 3, 4, 0, 80, 9]).2.2.1 10 (by decide),
   (c7_udp_dns_only [0, 0, 0, 1, 1, 2, 3, 4, 0, 53, 9]).2.2.2 [1, 2] [3]⟩

/-! ## Claim C9 -/

/-- Appending a freshly created (live) session adds one live entry. -/
theorem countP_append_false (l : List Bool) :
    (l ++ [false]).countP (fun b => !b) = l.countP (fun b => !b) + 1 := by
  simp [List.countP_append]

/-- Disposing a live session (closed latch `false`) removes exactly one
live entry. -/
theorem countP_set_closed (l : List Bool) :
    ∀ id : Nat, l.getD id true = false →
      ((l.set id true).countP (fun b => !b)) + 1 = l.countP (fun b => !b) := by
  induction l with
  | nil =>
    intro id h
    simp [List.getD] at h
  | cons b tl ih =>
    intro id h
    cases id with
    | zero =>
      simp only [List.getD_cons_zero] at h
      subst h
      simp [List.countP_cons]
    | succ n =>
      simp only [List.getD_cons_succ] at h
      have := ih n h
      simp only [List.set_cons_succ, List.countP_cons]
      omega

/-- The pool step preserves the invariant "the counter equals the
number of live sessions and stays within capacity". -/
theorem poolStep_preserves (m : Nat) (st : TcpWs.PoolSt) (e : TcpWs.PoolEvent)
    (h1 : st.maxS = m)
    (h2 : st.current = (TcpWs.liveCount st : Int))
    (h3 : st.current ≤ (m : Int)) :
    (TcpWs.poolStep st e).1.maxS = m ∧
    (TcpWs.poolStep st e).1.current =
      (TcpWs.liveCount (TcpWs.poolStep st e).1 : Int) ∧
    (TcpWs.poolStep st e).1.current ≤ (m : Int) := by
  subst h1
  have h0 : (0 : Int) ≤ st.current := by
    rw [h2]; exact Int.natCast_nonneg _
  cases e with
  | upgrade acceptOk =>
    simp only [TcpWs.poolStep]
    by_cases hcap : (st.maxS : Int) ≤ st.current
    · rw [if_pos hcap]
      exact ⟨rfl, h2, h3⟩
    · rw [if_neg hcap]
      cases acceptOk with
      | true =>
        rw [if_pos rfl]
        refine ⟨rfl, ?_, ?_⟩
        · show st.current + 1 =
            (TcpWs.liveCount ⟨st.maxS, st.current + 1, st.sessions ++ [false]⟩ : Int)
          simp only [TcpWs.liveCount] at h2 ⊢
          rw [countP_append_false]
          omega
        · show st.current + 1 ≤ (st.maxS : Int)
          omega
      | false =>
        rw [if_neg (by decide : ¬(false = true))]
        have hsub : st.current + 1 - 1 = st.current := by ring
        refine ⟨rfl, ?_, ?_⟩
        · show max (st.current + 1 - 1) 0 = (TcpWs.liveCount st : Int)
          rw [hsub, max_eq_left h0]
          exact h2
        · show max (st.current + 1 - 1) 0 ≤ (st.maxS : Int)
          rw [hsub, max_eq_left h0]
          exact h3
  | dispose id =>
    simp only [TcpWs.poolStep]
    by_cases hid : st.sessions.getD id true = true
    · rw [if_pos hid]
      exact ⟨rfl, h2, h3⟩
    · have hid' : st.sessions.getD id true = false := by
        cases h : st.sessions.getD id true
        · rfl
        · exact absurd h hid
      rw [hid']
      rw [if_neg (by decide : ¬(false = true))]
      have hcount := countP_set_closed st.sessions id hid'
      have hone : (1 : Int) ≤ st.current := by
        simp only [TcpWs.liveCount] at h2
        omega
      have hmax : max (st.current - 1) 0 = st.current - 1 :=
        max_eq_left (by omega)
      refine ⟨rfl, ?_, ?_⟩
      · show max (st.current - 1) 0 =
          (TcpWs.liveCount ⟨st.maxS, max (st.current - 1) 0,
            st.sessions.set id true⟩ : Int)
        rw [hmax]
        simp only [TcpWs.liveCount] at h2 ⊢
        omega
      · show max (st.current - 1) 0 ≤ (st.maxS : Int)
        rw [hmax]
        omega

/-- The invariant holds after any event sequence from the empty
pool. -/
theorem poolRun_good (m : Nat) (evs : List TcpWs.PoolEvent) :
    ∀ st : TcpWs.PoolSt,
      st.maxS = m → st.current = (TcpWs.liveCount st : Int) →
      st.current ≤ (m : Int) →
      ((evs.foldl (fun st e => (TcpWs.poolStep st e).1) st).maxS = m ∧
       (evs.foldl (fun st e => (TcpWs.poolStep st e).1) st).current =
         (TcpWs.liveCount (evs.foldl (fun st e => (TcpWs.poolStep st e).1) st) : Int) ∧
       (evs.foldl (fun st e => (TcpWs.poolStep st e).1) st).current ≤ (m : Int)) := by
  induction evs with
  | nil => intro st a b c; exact ⟨a, b, c⟩
  | cons e tl ih =>
    intro st a b c
    have h := poolStep_preserves m st e a b c
    exact ih _ h.1 h.2.1 h.2.2

/-- C9.  The egress session-pool counter equals the number of live (not
yet disposed) sessions after any sequence of upgrade / accept-failure /
dispose events (so it is never negative, never exceeds `maxSessions`,
and double disposal of a session releases its slot only once); and an
acquire at capacity returns HTTP 503 with the state — counter and
session list — unchanged. -/
theorem c9_pool_counter (maxS : Nat) (evs : List TcpWs.PoolEvent) :
    ((TcpWs.poolRun maxS evs).current =
        (TcpWs.liveCount (TcpWs.poolRun maxS evs) : Int) ∧
      0 ≤ (TcpWs.poolRun maxS evs).current ∧
      (TcpWs.poolRun maxS evs).current ≤ (maxS : Int)) ∧
    (∀ (st : TcpWs.PoolSt) (b : Bool), (st.maxS : Int) ≤ st.current →
      TcpWs.poolStep st (.upgrade b) = (st, 503)) := by
  constructor
  · have h := poolRun_good maxS evs ⟨maxS, 0, []⟩ rfl
      (by simp [TcpWs.liveCount]) (by simp)
    unfold TcpWs.poolRun
    refine ⟨h.2.1, ?_, h.2.2⟩
    rw [h.2.1]
    exact Int.natCast_nonneg _
  · intro st b hcap
    simp only [TcpWs.poolStep]
    rw [if_pos hcap]

/-- C9, witness: a capacity-1 trace with two upgrades (the second is
refused) and a double dispose (the second release is a no-op), plus a
concrete at-capacity 503 refusal. -/
theorem c9_witness :
    ((TcpWs.poolRun 1 [.upgrade true, .upgrade true, .dispose 0, .dispose 0]).current =
        (TcpWs.liveCount
          (TcpWs.poolRun 1 [.upgrade true, .upgrade true, .dispose 0, .dispose 0]) : Int) ∧
      0 ≤ (TcpWs.poolRun 1 [.upgrade true, .upgrade true, .dispose 0, .dispose 0]).current ∧
      (TcpWs.poolRun 1 [.upgrade true, .upgrade true, .dispose 0, .dispose 0]).current ≤
        ((1 : Nat) : Int)) ∧
    TcpWs.poolStep ⟨1, 1, [false]⟩ (.upgrade true) = (⟨1, 1, [false]⟩, 503) :=
  ⟨(c9_pool_counter 1 [.upgrade true, .upgrade true, .dispose 0, .dispose 0]).1,
   (c9_pool_counter 1 []).2 ⟨1, 1, [false]⟩ true (by decide)⟩

/-! ## Claim C10 -/

/-- C10.  In the `Server -> Client` loop of `handleTunnel`, every frame
whose `(type, payload)` is not the exact text frame `CLOSE` has its
payload bytes written verbatim to the client socket, in order —
including text frames such as `ERROR:...`, `PONG` or `DATA:...`, whose
raw text bytes end up injected into the client byte stream. -/
theorem c10_tunnel_forwards_all_but_close (frames : List (Nat × List Nat))
    (h : ∀ p ∈ frames, p.1 = Core.wsTextMessage → p.2 ≠ Core.closeFrameBytes) :
    Core.tunnelServerToClient frames = frames.map Prod.snd := by
  induction frames with
  | nil => rfl
  | cons hd tl ih =>
    obtain ⟨mt, msg⟩ := hd
    have hno : ¬(mt = Core.wsTextMessage ∧ msg = Core.closeFrameBytes) := by
      rintro ⟨ha, hb⟩
      exact h (mt, msg) (List.mem_cons_self _ _) ha hb
    simp only [Core.tunnelServerToClient, if_neg hno, List.map_cons]
    rw [ih (fun p hp => h p (List.mem_cons_of_mem _ hp))]

/-- C10, witness: a binary frame, the text frame `ERROR:x`
(`[69,82,82,79,82,58,120]`) and the text frame `PONG`
(`[80,79,78,71]`) are all written to the client verbatim. -/
theorem c10_witness :
    Core.tunnelServerToClient
        [(2, [1, 2]), (1, [69, 82, 82, 79, 82, 58, 120]), (1, [80, 79, 78, 71])] =
      [[1, 2], [69, 82, 82, 79, 82, 58, 120], [80, 79, 78, 71]] :=
  c10_tunnel_forwards_all_but_close
    [(2, [1, 2]), (1, [69, 82, 82, 79, 82, 58, 120]), (1, [80, 79, 78, 71])]
    (by decide)

/-! ### Lemmas about the egress CONNECT path -/

theorem tcpOnMessage_connect (cfg : TcpWs.TcpCfg) (dial : Nat → TcpWs.DialOutcome)
    (st : TcpWs.TcpState) (payload : List Char) (hclosed : st.closed = false) :
    TcpWs.tcpOnMessage cfg dial st (.text (chars "CONNECT:" ++ payload)) =
      (match TcpWs.connectRemote cfg dial (TcpWs.connectSplit payload).1
          (TcpWs.connectSplit payload).2 with
       | .connected dialed writes =>
         ({ st with hasRemote := true },
           dialed.map TcpWs.Eff.dialTo ++ writes.map TcpWs.Eff.writeUpstream ++
             [.sendText (chars "CONNECTED")])
       | .failed dialed msg =>
         ({ st with closed := true },
           dialed.map TcpWs.Eff.dialTo ++ [.sendErr msg, .dispose])) := by
  obtain ⟨hr, cl⟩ := st
  simp only at hclosed
  subst hclosed
  simp only [TcpWs.tcpOnMessage, messageParse_connect]
  rfl

/-- Unfolding of `_connectRemote` once the target has parsed, the port
has validated and the allowlist is empty. -/
theorem connectRemote_valid_eq (cfg : TcpWs.TcpCfg) (dial : Nat → TcpWs.DialOutcome)
    (target host portStr : List Char) (p : Int) (fp : Option (List Char))
    (atts : List TcpWs.Attempt)
    (hparse : TcpWs.parseAddress target = .ok (host, portStr))
    (hport : jsNumberInt portStr = some p)
    (hlo : 0 < p) (hhi : p ≤ 65535)
    (hallow : cfg.allowedHosts = [])
    (hatts : TcpWs.buildAttempts host p cfg.fallbacks = .ok atts) :
    TcpWs.connectRemote cfg dial target fp =
      (match TcpWs.connectLoopGo dial atts 0 with
       | (dialed, none) =>
         TcpWs.ConnectOutcome.connected dialed
           (match fp with
            | some s => if s.isEmpty then [] else [s]
            | none => [])
       | (dialed, some msg) => TcpWs.ConnectOutcome.failed dialed msg) := by
  simp only [TcpWs.connectRemote, hparse, hport]
  rw [if_neg (by omega : ¬(p ≤ 0 ∨ 65535 < p))]
  rw [if_neg (by simp [hallow] : ¬(cfg.allowedHosts ≠ [] ∧ host ∉ cfg.allowedHosts))]
  simp only [hatts]

/-- Unfolding of `_connectRemote` when the parsed port is out of range:
the `Invalid port` error is thrown before any dialing. -/
theorem connectRemote_invalid_port (cfg : TcpWs.TcpCfg)
    (dial : Nat → TcpWs.DialOutcome) (target host portStr : List Char)
    (fp : Option (List Char)) (p : Int)
    (hparse : TcpWs.parseAddress target = .ok (host, portStr))
    (hport : jsNumberInt portStr = some p)
    (hbad : p ≤ 0 ∨ 65535 < p) :
    TcpWs.connectRemote cfg dial target fp =
      .failed [] (chars "Invalid port: " ++ portStr) := by
  simp only [TcpWs.connectRemote, hparse, hport]
  rw [if_pos hbad]

/-- Behaviour of the dial loop: there is a decisive attempt index `k`;
all attempts before it failed with a transient Cloudflare-classified
error; the dialed attempts are exactly the first `k + 1`; the loop
succeeds iff the decisive dial succeeded, and otherwise rethrows the
decisive failure, which is either non-transient or on the last
attempt. -/
theorem connectLoopGo_spec (dial : Nat → TcpWs.DialOutcome) :
    ∀ (atts : List TcpWs.Attempt) (i : Nat), atts ≠ [] →
      ∃ k : Nat, k < atts.length ∧
        (TcpWs.connectLoopGo dial atts i).1 = atts.take (k + 1) ∧
        (∀ j, j < k → ∃ m, dial (i + j) = .fail m ∧ TcpWs.isCFError m = true) ∧
        ((TcpWs.connectLoopGo dial atts i).2 = none → dial (i + k) = .ok) ∧
        (∀ msg, (TcpWs.connectLoopGo dial atts i).2 = some msg →
          dial (i + k) = .fail msg ∧
          (TcpWs.isCFError msg = false ∨ k = atts.length - 1)) := by
  intro atts
  induction atts with
  | nil => intro i h; exact absurd rfl h
  | cons a rest ih =>
    intro i _
    rcases hd : dial i with _ | msg
    · refine ⟨0, by simp, ?_, ?_, ?_, ?_⟩
      · simp only [TcpWs.connectLoopGo, hd, List.take_succ_cons, List.take_zero]
      · intro j hj; omega
      · intro _; rw [Nat.add_zero]; exact hd
      · intro msg h
        simp only [TcpWs.connectLoopGo, hd] at h
        cases h
    · by_cases hcf : (TcpWs.isCFError msg && !rest.isEmpty) = true
      · have hcf' : TcpWs.isCFError msg = true ∧ (!rest.isEmpty) = true :=
          (Bool.and_eq_true _ _) ▸ hcf
        have hcf1 : TcpWs.isCFError msg = true := hcf'.1
        have hne : rest ≠ [] := by
          have h2 := hcf'.2
          cases rest
          · simp at h2
          · exact fun h => List.noConfusion h
        obtain ⟨k, hklen, htake, hcfall, hok, hfail⟩ := ih (i + 1) hne
        refine ⟨k + 1, by simp; omega, ?_, ?_, ?_, ?_⟩
        · simp only [TcpWs.connectLoopGo, hd, if_pos hcf, List.take_succ_cons]
          rw [htake]
        · intro j hj
          cases j with
          | zero => exact ⟨msg, by rw [Nat.add_zero]; exact hd, hcf1⟩
          | succ j' =>
            have : i + (j' + 1) = (i + 1) + j' := by omega
            rw [this]
            exact hcfall j' (by omega)
        · intro h
          simp only [TcpWs.connectLoopGo, hd, if_pos hcf] at h
          have : i + (k + 1) = (i + 1) + k := by omega
          rw [this]
          exact hok h
        · intro msg' h
          simp only [TcpWs.connectLoopGo, hd, if_pos hcf] at h
          have he : i + (k + 1) = (i + 1) + k := by omega
          rw [he]
          rcases hfail msg' h with ⟨h1, h2 | h2⟩
          · exact ⟨h1, Or.inl h2⟩
          · refine ⟨h1, Or.inr ?_⟩
            have : 1 ≤ rest.length := by
              cases rest
              · exact absurd rfl hne
              · simp
            simp only [List.length_cons]
            omega
      · refine ⟨0, by simp, ?_, ?_, ?_, ?_⟩
        · simp only [TcpWs.connectLoopGo, hd, if_neg hcf, List.take_succ_cons,
            List.take_zero]
        · intro j hj; omega
        · intro h
          simp only [TcpWs.connectLoopGo, hd, if_neg hcf] at h
          cases h
        · intro msg' h
          simp only [TcpWs.connectLoopGo, hd, if_neg hcf] at h
          injection h with h'
          subst h'
          refine ⟨by rw [Nat.add_zero]; exact hd, ?_⟩
          cases h1 : TcpWs.isCFError msg with
          | false => exact Or.inl rfl
          | true =>
            have h2 : rest = [] := by
              cases hrest : rest
              · rfl
              · subst hrest
                exact absurd (by rw [h1]; rfl) hcf
            subst h2
            exact Or.inr (by simp)

/-- Shape of the materialised fallback attempt list: one attempt per
configured entry, and every entry without a `:` separator inherits the
default (target) port. -/
theorem fallbackAttemptsList_spec (p : Int) :
    ∀ (fbs : List (List Char)) (rest : List TcpWs.Attempt),
      TcpWs.fallbackAttemptsList p fbs = .ok rest →
      rest.length = fbs.length ∧
      ∀ j, (hj : j < fbs.length) → ':' ∉ fbs[j] →
        rest[j]? = some ⟨fbs[j], TcpWs.PortVal.num p⟩ := by
  intro fbs
  induction fbs with
  | nil =>
    intro rest h
    simp only [TcpWs.fallbackAttemptsList] at h
    injection h with h
    subst h
    exact ⟨rfl, fun j hj => absurd hj (by simp)⟩
  | cons x xs ih =>
    intro rest h
    simp only [TcpWs.fallbackAttemptsList] at h
    cases hx : TcpWs.fallbackAttempt p x with
    | error e =>
      rw [hx] at h
      cases h
    | ok a =>
      rw [hx] at h
      cases hxs : TcpWs.fallbackAttemptsList p xs with
      | error e =>
        rw [hxs] at h
        cases h
      | ok as =>
        rw [hxs] at h
        injection h with h
        subst h
        obtain ⟨hlen, hget⟩ := ih as hxs
        refine ⟨by simp [hlen], ?_⟩
        intro j hj hcolon
        cases j with
        | zero =>
          have hax : TcpWs.fallbackAttempt p x = .ok ⟨x, .num p⟩ := by
            unfold TcpWs.fallbackAttempt
            rw [if_neg (by simpa using hcolon)]
          rw [hx] at hax
          injection hax with h2
          simp only [List.getElem?_cons_zero, List.getElem_cons_zero]
          rw [h2]
        | succ j' =>
          simp only [List.getElem?_cons_succ, List.getElem_cons_succ] at hcolon ⊢
          exact hget j' (by simpa using hj) hcolon

/-! ## Claim C3 -/

/-- C3.  On a `CONNECT` frame whose target parses and whose port
validates (with an empty allowlist, the default): the dial-attempt list
is exactly `[target]` when the target host is an IP literal and
`[target, ...fallbackIPs]` otherwise, each fallback entry without a
`:` separator (i.e. lacking a port) inheriting the validated target
port; there is a decisive attempt index `k` such that every earlier
attempt failed with a message matching `/proxy request/i`,
`/cannot connect/i` or `/cloudflare/i` (the loop advances only on such
failures); when the decisive dial succeeds, exactly the first `k + 1`
attempts were dialed, the first payload (when truthy) is written and
`CONNECTED` is sent; when it fails, the failure is non-transient or the
attempt list is exhausted, and the session sends `ERROR:` with that
reason and closes. -/
theorem c3_fallback_cascade (cfg : TcpWs.TcpCfg) (dial : Nat → TcpWs.DialOutcome)
    (st : TcpWs.TcpState) (payload target host portStr : List Char)
    (fp : Option (List Char)) (p : Int) (atts : List TcpWs.Attempt)
    (hclosed : st.closed = false)
    (hsplit : TcpWs.connectSplit payload = (target, fp))
    (hparse : TcpWs.parseAddress target = .ok (host, portStr))
    (hport : jsNumberInt portStr = some p)
    (hlo : 0 < p) (hhi : p ≤ 65535)
    (hallow : cfg.allowedHosts = [])
    (hatts : TcpWs.buildAttempts host p cfg.fallbacks = .ok atts) :
    (TcpWs.isIpAddress host = true → atts = [⟨host, .num p⟩]) ∧
    (TcpWs.isIpAddress host = false →
      ∃ rest, atts = ⟨host, .num p⟩ :: rest ∧
        rest.length = cfg.fallbacks.length ∧
        ∀ j, (hj : j < cfg.fallbacks.length) → ':' ∉ cfg.fallbacks[j] →
          rest[j]? = some ⟨cfg.fallbacks[j], .num p⟩) ∧
    (∃ k, k < atts.length ∧
      (∀ j, j < k → ∃ m, dial j = .fail m ∧ TcpWs.isCFError m = true) ∧
      (dial k = .ok →
        TcpWs.tcpOnMessage cfg dial st (.text (chars "CONNECT:" ++ payload)) =
          ({ st with hasRemote := true },
            (atts.take (k + 1)).map TcpWs.Eff.dialTo ++
              (match fp with
               | some s => if s.isEmpty then [] else [s]
               | none => []).map TcpWs.Eff.writeUpstream ++
              [.sendText (chars "CONNECTED")])) ∧
      (∀ msg, dial k = .fail msg →
        (TcpWs.isCFError msg = false ∨ k = atts.length - 1) ∧
        TcpWs.tcpOnMessage cfg dial st (.text (chars "CONNECT:" ++ payload)) =
          ({ st with closed := true },
            (atts.take (k + 1)).map TcpWs.Eff.dialTo ++
              [.sendErr msg, .dispose]))) := by
  have hmsg := tcpOnMessage_connect cfg dial st payload hclosed
  have hs1 : (TcpWs.connectSplit payload).1 = target := by rw [hsplit]
  have hs2 : (TcpWs.connectSplit payload).2 = fp := by rw [hsplit]
  rw [hs1, hs2] at hmsg
  rw [connectRemote_valid_eq cfg dial target host portStr p fp atts hparse
    hport hlo hhi hallow hatts] at hmsg
  refine ⟨?_, ?_, ?_⟩
  · intro hip
    unfold TcpWs.buildAttempts at hatts
    rw [if_pos hip] at hatts
    injection hatts with h
    exact h.symm
  · intro hip
    unfold TcpWs.buildAttempts at hatts
    rw [if_neg (by simp [hip])] at hatts
    cases hfb : TcpWs.fallbackAttemptsList p cfg.fallbacks with
    | error e =>
      rw [hfb] at hatts
      cases hatts
    | ok rest =>
      rw [hfb] at hatts
      injection hatts with h
      obtain ⟨hlen, hget⟩ := fallbackAttemptsList_spec p cfg.fallbacks rest hfb
      exact ⟨rest, h.symm, hlen, hget⟩
  · have hne : atts ≠ [] := by
      unfold TcpWs.buildAttempts at hatts
      by_cases hip : TcpWs.isIpAddress host = true
      · rw [if_pos hip] at hatts
        injection hatts with h
        rw [← h]
        exact fun hx => List.noConfusion hx
      · rw [if_neg hip] at hatts
        cases hfb : TcpWs.fallbackAttemptsList p cfg.fallbacks with
        | error e =>
          rw [hfb] at hatts
          cases hatts
        | ok rest =>
          rw [hfb] at hatts
          injection hatts with h
          rw [← h]
          exact fun hx => List.noConfusion hx
    obtain ⟨k, hklen, htake, hcfall, hok, hfail⟩ :=
      connectLoopGo_spec dial atts 0 hne
    refine ⟨k, hklen, ?_, ?_, ?_⟩
    · intro j hj
      have h := hcfall j hj
      rwa [Nat.zero_add] at h
    · intro hdk
      rcases hres : TcpWs.connectLoopGo dial atts 0 with ⟨dialed, res⟩
      cases res with
      | some m =>
        have hf := hfail m (by rw [hres])
        rw [Nat.zero_add] at hf
        rw [hf.1] at hdk
        cases hdk
      | none =>
        simp only [hres] at hmsg htake
        rw [hmsg, htake]
    · intro msg hdk
      rcases hres : TcpWs.connectLoopGo dial atts 0 with ⟨dialed, res⟩
      cases res with
      | none =>
        have ho := hok (by rw [hres])
        rw [Nat.zero_add] at ho
        rw [ho] at hdk
        cases hdk
      | some m =>
        simp only [hres] at hfail htake hmsg
        have hf := hfail m rfl
        rw [Nat.zero_add] at hf
        rw [hf.1] at hdk
        injection hdk with he
        subst he
        refine ⟨hf.2, ?_⟩
        rw [hmsg, htake]

/-- C3, witness: target `example.com:443` (not an IP literal) with the
single port-less fallback `fb.example.net`; the first dial fails with
`Cannot Connect` (transient, Cloudflare-classified), the second
succeeds, so both attempts are dialed and `CONNECTED` is sent. -/
theorem c3_witness :
    (TcpWs.isIpAddress (chars "example.com") = true →
      [TcpWs.Attempt.mk (chars "example.com") (TcpWs.PortVal.num 443),
       TcpWs.Attempt.mk (chars "fb.example.net") (TcpWs.PortVal.num 443)] =
        [TcpWs.Attempt.mk (chars "example.com") (TcpWs.PortVal.num 443)]) ∧
    (TcpWs.isIpAddress (chars "example.com") = false →
      ∃ rest,
        [TcpWs.Attempt.mk (chars "example.com") (TcpWs.PortVal.num 443),
         TcpWs.Attempt.mk (chars "fb.example.net") (TcpWs.PortVal.num 443)] =
          TcpWs.Attempt.mk (chars "example.com") (TcpWs.PortVal.num 443) :: rest ∧
        rest.length = [chars "fb.example.net"].length ∧
        ∀ j, (hj : j < [chars "fb.example.net"].length) →
          ':' ∉ [chars "fb.example.net"][j] →
          rest[j]? =
            some (TcpWs.Attempt.mk ([chars "fb.example.net"][j])
              (TcpWs.PortVal.num 443))) ∧
    (∃ k, k <
        [TcpWs.Attempt.mk (chars "example.com") (TcpWs.PortVal.num 443),
         TcpWs.Attempt.mk (chars "fb.example.net") (TcpWs.PortVal.num 443)].length ∧
      (∀ j, j < k → ∃ m,
        (fun i => if i = 0 then TcpWs.DialOutcome.fail (chars "Cannot Connect")
          else TcpWs.DialOutcome.ok) j = .fail m ∧ TcpWs.isCFError m = true) ∧
      ((fun i => if i = 0 then TcpWs.DialOutcome.fail (chars "Cannot Connect")
          else TcpWs.DialOutcome.ok) k = .ok →
        TcpWs.tcpOnMessage ⟨[chars "fb.example.net"], []⟩
            (fun i => if i = 0 then TcpWs.DialOutcome.fail (chars "Cannot Connect")
              else TcpWs.DialOutcome.ok)
            ⟨false, false⟩ (.text (chars "CONNECT:" ++ chars "example.com:443|")) =
          (⟨true, false⟩,
            ([TcpWs.Attempt.mk (chars "example.com") (TcpWs.PortVal.num 443),
              TcpWs.Attempt.mk (chars "fb.example.net") (TcpWs.PortVal.num 443)].take (k + 1)).map
                TcpWs.Eff.dialTo ++
              (match (some [] : Option (List Char)) with
               | some s => if s.isEmpty then [] else [s]
               | none => []).map TcpWs.Eff.writeUpstream ++
              [.sendText (chars "CONNECTED")])) ∧
      (∀ msg,
        (fun i => if i = 0 then TcpWs.DialOutcome.fail (chars "Cannot Connect")
          else TcpWs.DialOutcome.ok) k = .fail msg →
        (TcpWs.isCFError msg = false ∨ k =
          [TcpWs.Attempt.mk (chars "example.com") (TcpWs.PortVal.num 443),
           TcpWs.Attempt.mk (chars "fb.example.net") (TcpWs.PortVal.num 443)].length - 1) ∧
        TcpWs.tcpOnMessage ⟨[chars "fb.example.net"], []⟩
            (fun i => if i = 0 then TcpWs.DialOutcome.fail (chars "Cannot Connect")
              else TcpWs.DialOutcome.ok)
            ⟨false, false⟩ (.text (chars "CONNECT:" ++ chars "example.com:443|")) =
          (⟨false, true⟩,
            ([TcpWs.Attempt.mk (chars "example.com") (TcpWs.PortVal.num 443),
              TcpWs.Attempt.mk (chars "fb.example.net") (TcpWs.PortVal.num 443)].take (k + 1)).map
                TcpWs.Eff.dialTo ++
              [.sendErr msg, .dispose]))) :=
  c3_fallback_cascade ⟨[chars "fb.example.net"], []⟩
    (fun i => if i = 0 then TcpWs.DialOutcome.fail (chars "Cannot Connect")
      else TcpWs.DialOutcome.ok)
    ⟨false, false⟩ (chars "example.com:443|") (chars "example.com:443")
    (chars "example.com") (chars "443") (some []) 443
    [TcpWs.Attempt.mk (chars "example.com") (TcpWs.PortVal.num 443),
     TcpWs.Attempt.mk (chars "fb.example.net") (TcpWs.PortVal.num 443)]
    rfl rfl rfl rfl (by decide) (by decide) rfl rfl

/-! ## Claim C4 -/

/-- C4, counterexample.  The claim says no port outside `1..65535` is
ever silently replaced by a default port, citing the `parseAddress` of
`src/worker.js` — but that function computes
`parseInt(...) || 443`, so the out-of-range port `0` is silently
replaced by the default `443`, and the out-of-range port `65536` is
accepted unchanged (no rejection). -/
theorem c4_counterexample :
    WorkerJs.parseAddress (chars "example.com:0") =
      .ok (chars "example.com", 443) ∧
    WorkerJs.parseAddress (chars "example.com:65536") =
      .ok (chars "example.com", 65536) ∧
    (443 : Int) ≠ 0 :=
  ⟨rfl, rfl, by decide⟩

/-- C4, amended.  In the `TcpWsSession` egress, a `CONNECT` frame whose
target parses to an out-of-range port (`p ≤ 0` or `p > 65535`, in
particular `0` and `65536`) is rejected with an `ERROR` frame and a
close, before any dialing; the `ProxySession` egress of
`src/worker.js`, however, silently substitutes the default port `443`
for a port that parses to `0` (or fails to parse), and performs no
range validation at all. -/
theorem c4_amended (cfg : TcpWs.TcpCfg) (dial : Nat → TcpWs.DialOutcome)
    (st : TcpWs.TcpState) (payload target host portStr : List Char)
    (fp : Option (List Char)) (p : Int)
    (hclosed : st.closed = false)
    (hsplit : TcpWs.connectSplit payload = (target, fp))
    (hparse : TcpWs.parseAddress target = .ok (host, portStr))
    (hport : jsNumberInt portStr = some p)
    (hbad : p ≤ 0 ∨ 65535 < p) :
    TcpWs.tcpOnMessage cfg dial st (.text (chars "CONNECT:" ++ payload)) =
      ({ st with closed := true },
        [.sendErr (chars "Invalid port: " ++ portStr), .dispose]) ∧
    WorkerJs.parseAddress (chars "example.com:0") =
      .ok (chars "example.com", 443) := by
  refine ⟨?_, rfl⟩
  have hmsg := tcpOnMessage_connect cfg dial st payload hclosed
  have hs1 : (TcpWs.connectSplit payload).1 = target := by rw [hsplit]
  have hs2 : (TcpWs.connectSplit payload).2 = fp := by rw [hsplit]
  rw [hs1, hs2] at hmsg
  rw [connectRemote_invalid_port cfg dial target host portStr fp p hparse
    hport hbad] at hmsg
  rw [hmsg]
  rfl

/-! ## Claim C5 -/

/-- C5, counterexample.  For a `CONNECT` text frame with no `|`, the
claim says the egress treats the entire suffix after `CONNECT:` as the
target with an empty first payload; but in
`ProxySession.handleMessage` (`src/worker.js`) `indexOf` returns `-1`
and `substring(8, -1)` clamp-swaps to `substring(0, 8)`, so the target
becomes the literal prefix `CONNECT:` and the first payload becomes
the whole frame text. -/
theorem c5_counterexample :
    WorkerJs.connectSplit (chars "CONNECT:example.com:443") =
      (chars "CONNECT:", chars "CONNECT:example.com:443") ∧
    chars "CONNECT:" ≠ chars "example.com:443" :=
  ⟨rfl, by decide⟩

/-- C5, amended.  For a `CONNECT` payload containing no `|`: the
`TcpWsSession` egress treats the whole payload as the target with a
`null` first payload, and its `_connectRemote` then writes nothing to
the upstream before `CONNECTED` (the firstWrites of any successful
connect are empty); the `ProxySession` egress of `src/worker.js`,
however, mis-splits the frame into the target `CONNECT:` and a first
payload equal to the entire frame text. -/
theorem c5_amended (payload : List Char) (hsep : '|' ∉ payload) :
    TcpWs.connectSplit payload = (payload, none) ∧
    (∀ (cfg : TcpWs.TcpCfg) (dial : Nat → TcpWs.DialOutcome)
        (dialed : List TcpWs.Attempt) (w : List (List Char)),
      TcpWs.connectRemote cfg dial payload none = .connected dialed w →
      w = []) ∧
    WorkerJs.connectSplit (chars "CONNECT:" ++ payload) =
      (chars "CONNECT:", chars "CONNECT:" ++ payload) := by
  have hfind : idxOf? '|' payload = none := by
    unfold idxOf?
    rw [List.findIdx?_eq_none_iff]
    intro x hx
    by_cases h : x = '|'
    · exact absurd (h ▸ hx) hsep
    · exact beq_eq_false_iff_ne.2 h
  have hlen : (chars "CONNECT:" ++ payload).length = 8 + payload.length := by
    rw [List.length_append]
    rfl
  refine ⟨?_, ?_, ?_⟩
  · unfold TcpWs.connectSplit
    rw [hfind]
  · intro cfg dial dialed w h
    unfold TcpWs.connectRemote at h
    cases hp : TcpWs.parseAddress payload with
    | error e =>
      rw [hp] at h
      cases h
    | ok hp' =>
      simp only [hp] at h
      cases hn : jsNumberInt hp'.2 with
      | none =>
        simp only [hn] at h
        cases h
      | some p =>
        simp only [hn] at h
        by_cases hb : p ≤ 0 ∨ 65535 < p
        · rw [if_pos hb] at h
          cases h
        · rw [if_neg hb] at h
          by_cases ha : cfg.allowedHosts ≠ [] ∧ hp'.1 ∉ cfg.allowedHosts
          · rw [if_pos ha] at h
            cases h
          · rw [if_neg ha] at h
            cases hba : TcpWs.buildAttempts hp'.1 p cfg.fallbacks with
            | error e =>
              simp only [hba] at h
              cases h
            | ok atts =>
              simp only [hba] at h
              rcases hloop : TcpWs.connectLoopGo dial atts 0 with ⟨d, res⟩
              cases res with
              | none =>
                simp only [hloop] at h
                injection h with h1 h2
                exact h2.symm
              | some m =>
                simp only [hloop] at h
                cases h
  · have hdrop : (chars "CONNECT:" ++ payload).drop 8 = payload :=
      List.drop_left (chars "CONNECT:") payload
    have hidx : jsIndexOfFrom (chars "CONNECT:" ++ payload) '|' 8 = -1 := by
      unfold jsIndexOfFrom
      rw [hdrop, hfind]
    have e1 : jsSubstring (chars "CONNECT:" ++ payload) 8 (-1) =
        chars "CONNECT:" := by
      unfold jsSubstring clampIdx
      rw [hlen]
      rw [if_neg (by decide : ¬(8 : Int) ≤ 0),
        if_pos (by decide : (-1 : Int) ≤ 0)]
      rw [min_eq_left (by omega : (8 : Int).toNat ≤ 8 + payload.length)]
      rw [if_neg (by decide : ¬(8 : Int).toNat ≤ 0)]
      rw [List.drop_zero]
      exact List.take_left' (by decide)
    have e2 : jsSubstring (chars "CONNECT:" ++ payload) (-1 + 1)
        ((chars "CONNECT:" ++ payload).length : Int) =
        chars "CONNECT:" ++ payload := by
      unfold jsSubstring clampIdx
      rw [if_pos (by decide : (-1 + 1 : Int) ≤ 0)]
      rw [if_neg (show ¬((chars "CONNECT:" ++ payload).length : Int) ≤ 0 by
        rw [hlen]; omega)]
      rw [Int.toNat_natCast, min_self]
      rw [if_pos (Nat.zero_le _)]
      rw [List.drop_zero, Nat.sub_zero, List.take_length]
    unfold WorkerJs.connectSplit
    rw [hidx, e1, e2]

/-- C5, witness for the amended theorem at the separator-free payload
`example.com:443`. -/
theorem c5_witness :
    TcpWs.connectSplit (chars "example.com:443") =
      (chars "example.com:443", none) ∧
    (∀ (cfg : TcpWs.TcpCfg) (dial : Nat → TcpWs.DialOutcome)
        (dialed : List TcpWs.Attempt) (w : List (List Char)),
      TcpWs.connectRemote cfg dial (chars "example.com:443") none =
        .connected dialed w → w = []) ∧
    WorkerJs.connectSplit (chars "CONNECT:" ++ chars "example.com:443") =
      (chars "CONNECT:", chars "CONNECT:" ++ chars "example.com:443") :=
  c5_amended (chars "example.com:443") (by decide)

/-- C4, witness for the amended theorem: `CONNECT:example.com:0|x` is
rejected with `Invalid port: 0` without dialing. -/
theorem c4_witness :
    TcpWs.tcpOnMessage ⟨[], []⟩ (fun _ => TcpWs.DialOutcome.ok) ⟨false, false⟩
        (.text (chars "CONNECT:" ++ chars "example.com:0|x")) =
      (⟨false, true⟩,
        [.sendErr (chars "Invalid port: " ++ chars "0"), .dispose]) ∧
    WorkerJs.parseAddress (chars "example.com:0") =
      .ok (chars "example.com", 443) :=
  c4_amended ⟨[], []⟩ (fun _ => TcpWs.DialOutcome.ok) ⟨false, false⟩
    (chars "example.com:0|x") (chars "example.com:0") (chars "example.com")
    (chars "0") (some (chars "x")) 0 rfl rfl rfl rfl (Or.inl (by decide))

end EchWk
